import Mathlib

/-!
Shallow embedding of `pkg/coverage/coverage.go` (gVisor coverage package).

The Go package keeps:
  * `coverdata.Cover.Blocks   : map[string][]testing.CoverBlock`
  * `coverdata.Cover.Counters : map[string][]uint32`
  * `globalData.files         : []string` (sorted file names)
  * `globalData.syntheticPCs  : [][]uint64`

Go maps are modelled by a key list (the iteration order of the map, which is
arbitrary) together with a total lookup function that returns the Go zero
value (`nil` slice, i.e. `[]`) for absent keys.  `uint32`/`uint64` values are
modelled as `Nat` with explicit `% 2^64` where overflow can occur.  A Go
runtime panic (slice index out of range) and a `panic(...)` call are modelled
by explicit result constructors.
-/

namespace Coverage

/-- `testing.CoverBlock` as registered by the instrumentation (source of
`coverdata.Cover.Blocks`): Line0/Col0/Line1/Col1. -/
structure GoCoverBlock where
  Line0 : Nat
  Col0  : Nat
  Line1 : Nat
  Col1  : Nat
deriving DecidableEq, Repr

/-- `CoverBlock` from coverage.go: starting and ending positions of a block. -/
structure CoverBlock where
  FirstLine : Nat
  FirstCol  : Nat
  LastLine  : Nat
  LastCol   : Nat
deriving DecidableEq, Repr

/-- `coverdata.Cover`: the external instrumentation data.  `blockKeys` and
`counterKeys` are the key sets (in iteration order) of the `Blocks` and
`Counters` maps; `blocksOf`/`countersOf` are the map lookups, returning `[]`
(Go `nil` slice) for a key not in the map. -/
structure Cover where
  blockKeys   : List String
  counterKeys : List String
  blocksOf    : String → List GoCoverBlock
  countersOf  : String → List Nat

/-- `globalData` from coverage.go: sorted file list and per-file synthetic
PCs, both `nil` (empty) before `InitCoverageData` runs. -/
structure GlobalData where
  files        : List String
  syntheticPCs : List (List Nat)
deriving DecidableEq, Repr

/-- The zero value of `globalData` (both slices `nil`). -/
def globalDataZero : GlobalData := ⟨[], []⟩

/-- `KcovAvailable`: `len(coverdata.Cover.Blocks) > 0`.  `len` of a Go map
is its number of keys. -/
def kcovAvailable (c : Cover) : Bool :=
  c.blockKeys.length > 0

/-- `calculatePC`: `(uint64(fileNum) << 16) + uint64(blockNum)`, on 64-bit
unsigned arithmetic. -/
def calculatePC (fileNum blockNum : Nat) : Nat :=
  (fileNum * 2 ^ 16 + blockNum) % 2 ^ 64

/-- Lexicographic string comparison, phrased on the character list of the
string.  `leData_iff` below shows this is exactly `(· ≤ ·)` on `String`. -/
def leData (a b : String) : Prop := a.data ≤ b.data

instance : DecidableRel leData :=
  fun a b => inferInstanceAs (Decidable (a.data ≤ b.data))

/-- `sort.Strings`: sorts a string slice lexicographically.  Insertion sort
produces the same list as any correct comparison sort: for a linear order the
sorted permutation of a list is unique (`List.eq_of_perm_of_sorted`). -/
def sortStrings (l : List String) : List String :=
  List.insertionSort leData l

instance : IsTrans String leData :=
  ⟨fun _ _ _ hab hbc => le_trans (α := List Char) hab hbc⟩

instance : IsTotal String leData :=
  ⟨fun a b => le_total (α := List Char) a.data b.data⟩

instance : IsAntisymm String leData :=
  ⟨fun a b hab hba => by
    have h : a.data = b.data := le_antisymm (α := List Char) hab hba
    exact String.toList_inj.mp h⟩

/-- The inner loop of `InitCoverageData` for one file:
`for blockNum := range blocks { pcs = append(pcs, calculatePC(fileNum, blockNum)) }`. -/
def filePCs (fileNum : Nat) (blocks : List GoCoverBlock) : List Nat :=
  (List.range blocks.length).map (fun blockNum => calculatePC fileNum blockNum)

/-- The outer loop of `InitCoverageData`:
`for fileNum, file := range globalData.files { ... }`, appending one PC list
per file, with `fileNum` counting up from the given start index. -/
def buildPCs (blocksOf : String → List GoCoverBlock) :
    List String → Nat → List (List Nat)
  | [], _ => []
  | file :: rest, fileNum =>
      filePCs fileNum (blocksOf file) :: buildPCs blocksOf rest (fileNum + 1)

/-- `InitCoverageData`: appends every key of `coverdata.Cover.Blocks` to
`globalData.files`, sorts the result, then appends one synthetic-PC list per
entry of the (new) file list to `globalData.syntheticPCs`. -/
def initCoverageData (c : Cover) (g : GlobalData) : GlobalData :=
  let files := sortStrings (g.files ++ c.blockKeys)
  { files := files
    syntheticPCs := g.syntheticPCs ++ buildPCs c.blocksOf files 0 }

/-- Result of `FileFromIndex` / `BlockFromIndex`: a normal value, the
`fmt.Errorf("... index out of range: [%d] with length %d", i, total)` error
(carrying exactly the two formatted values), or a Go runtime panic from the
slice/map indexing. -/
inductive GoResult (α : Type) where
  | ok (a : α)
  | errorOutOfRange (i : Int) (total : Nat)
  | runtimePanic
deriving DecidableEq, Repr

/-- Whether a `GoResult` is the returned out-of-range error. -/
def GoResult.isOutOfRange {α : Type} : GoResult α → Bool
  | .errorOutOfRange _ _ => true
  | _ => false

/-- `FileFromIndex(i)`: `total := len(globalData.files)`; returns the error
only when `i > total`; otherwise performs `globalData.files[i]`, which panics
unless `0 ≤ i < total`. -/
def fileFromIndex (g : GlobalData) (i : Int) : GoResult String :=
  let total : Int := (g.files.length : Int)
  if i > total then .errorOutOfRange i g.files.length
  else if 0 ≤ i ∧ i < total then .ok (g.files.getD i.toNat "")
  else .runtimePanic

/-- `BlockFromIndex(file, i)`: `total := len(coverdata.Cover.Blocks[file])`;
returns the error only when `i > total`; otherwise indexes
`coverdata.Cover.Blocks[file][i]` (panics unless `0 ≤ i < total`) and converts
the block. -/
def blockFromIndex (c : Cover) (file : String) (i : Int) : GoResult CoverBlock :=
  let blocks := c.blocksOf file
  let total : Int := (blocks.length : Int)
  if i > total then .errorOutOfRange i blocks.length
  else if 0 ≤ i ∧ i < total then
    let b := blocks.getD i.toNat ⟨0, 0, 0, 0⟩
    .ok ⟨b.Line0, b.Col0, b.Line1, b.Col1⟩
  else .runtimePanic

/-- The inner loop of `ClearCoverageData` for one counter slice:
`for index := 0; index < len(counters); index++ { atomic.StoreUint32(&counters[index], 0) }`. -/
def storeZeroAll : List Nat → List Nat
  | [] => []
  | _ :: rest => 0 :: storeZeroAll rest

/-- Pointwise update of a counters map at one key (a store through the slice
reference obtained from the map). -/
def updateCounters (f : String → List Nat) (file : String) (cs : List Nat) :
    String → List Nat :=
  fun x => if x = file then cs else f x

/-- The outer loop of `ClearCoverageData`:
`for _, counters := range coverdata.Cover.Counters { ... }`, zeroing each
value slice of the `Counters` map in place. -/
def clearLoop : List String → (String → List Nat) → (String → List Nat)
  | [], f => f
  | k :: ks, f => clearLoop ks (updateCounters f k (storeZeroAll (f k)))

/-- `ClearCoverageData`: zeroes every counter slice of
`coverdata.Cover.Counters`; touches nothing else and emits nothing. -/
def clearCoverageData (c : Cover) : Cover :=
  { c with countersOf := clearLoop c.counterKeys c.countersOf }

/-- One `w.Write(pcBuffer[:])` outcome: success with `n` bytes accepted,
`io.EOF` with `n` bytes accepted, or any other error. -/
inductive WriteOutcome where
  | ok (n : Nat)
  | eof (n : Nat)
  | err (n : Nat)
deriving DecidableEq, Repr

/-- A sink: the outcome of the k-th `Write` call issued during a flush. -/
def Sink : Type := Nat → WriteOutcome

/-- A sink that accepts every 8-byte write in full. -/
def perfectSink : Sink := fun _ => .ok 8

/-- Outcome of scanning the counters of one file (the inner loop of
`ConsumeCoverageData`): the updated counter slice, and either normal loop
completion, the `io.EOF` early return (carrying `total + n`), a panic on
another write error, or a Go runtime panic from `syntheticPCs[fileIndex][index]`
being out of range. -/
inductive BlockScan where
  | done (cs : List Nat) (total writeIdx : Nat) (pcs : List Nat)
  | eofStop (cs : List Nat) (total : Nat) (pcs : List Nat)
  | writePanic (cs : List Nat)
  | indexPanic (cs : List Nat)

/-- Prepend an already-scanned counter value to the counter slice of a
`BlockScan` outcome. -/
def BlockScan.consCounter (c : Nat) : BlockScan → BlockScan
  | .done cs t w pcs => .done (c :: cs) t w pcs
  | .eofStop cs t pcs => .eofStop (c :: cs) t pcs
  | .writePanic cs => .writePanic (c :: cs)
  | .indexPanic cs => .indexPanic (c :: cs)

/-- The inner loop of `ConsumeCoverageData` over one file's counters:
zero counters are skipped; a nonzero counter is stored back as 0, its PC
`syntheticPCs[fileIndex][index]` is looked up (runtime panic if out of
range), and the 8-byte PC is written to the sink: on success `total += n`,
on `io.EOF` return `total + n`, on any other error panic. -/
def scanFile (sink : Sink) (spcs : List (List Nat)) (fileIndex : Nat) :
    List Nat → Nat → Nat → Nat → List Nat → BlockScan
  | [], _, total, writeIdx, pcs => .done [] total writeIdx pcs
  | counter :: rest, blockIdx, total, writeIdx, pcs =>
      if counter = 0 then
        (scanFile sink spcs fileIndex rest (blockIdx + 1) total writeIdx
          pcs).consCounter counter
      else
        match (spcs.get? fileIndex).bind (fun row => row.get? blockIdx) with
        | none => .indexPanic (0 :: rest)
        | some pc =>
            match sink writeIdx with
            | .ok n =>
                (scanFile sink spcs fileIndex rest (blockIdx + 1) (total + n)
                  (writeIdx + 1) (pcs ++ [pc])).consCounter 0
            | .eof n => .eofStop (0 :: rest) (total + n) (pcs ++ [pc])
            | .err _ => .writePanic (0 :: rest)

/-- Outcome of the full scan of `ConsumeCoverageData` over all files:
the updated counters map and either loop completion, an `io.EOF` early
return, a write-error panic, or an indexing runtime panic. -/
inductive FlushScan where
  | completed (countersOf : String → List Nat) (total writeIdx : Nat)
      (pcs : List Nat)
  | eofStop (countersOf : String → List Nat) (total : Nat) (pcs : List Nat)
  | writePanic (countersOf : String → List Nat)
  | indexPanic (countersOf : String → List Nat)

/-- The outer loop of `ConsumeCoverageData`:
`for fileIndex, file := range globalData.files`, scanning
`coverdata.Cover.Counters[file]` and storing the cleared slice back through
the map reference. -/
def scanFiles (sink : Sink) (spcs : List (List Nat)) :
    List String → Nat → (String → List Nat) → Nat → Nat → List Nat → FlushScan
  | [], _, countersOf, total, writeIdx, pcs =>
      .completed countersOf total writeIdx pcs
  | file :: rest, fileIndex, countersOf, total, writeIdx, pcs =>
      match scanFile sink spcs fileIndex (countersOf file) 0 total writeIdx [] with
      | .done cs t w newPcs =>
          scanFiles sink spcs rest (fileIndex + 1)
            (updateCounters countersOf file cs) t w (pcs ++ newPcs)
      | .eofStop cs t newPcs =>
          .eofStop (updateCounters countersOf file cs) t (pcs ++ newPcs)
      | .writePanic cs => .writePanic (updateCounters countersOf file cs)
      | .indexPanic cs => .indexPanic (updateCounters countersOf file cs)

/-- The possible terminations of `ConsumeCoverageData`: a normal return of
the byte total, the `panic` on a non-EOF write error, the `panic` when the
full scan found zero bytes to write, or a runtime indexing panic. -/
inductive FlushResult where
  | ret (total : Nat)
  | writePanic
  | zeroPanic
  | indexPanic
deriving DecidableEq, Repr

/-- `ConsumeCoverageData(w)` run against an already-initialized catalog `g`
(the `once.Do(InitCoverageData)` guard is modelled by instantiating `g` with
the result of `initCoverageData`).  Returns the termination result, the
counters map after the run, and the list of PCs whose 8-byte buffers were
accepted by the sink, in write order. -/
def consumeCoverageData (g : GlobalData) (c : Cover) (sink : Sink) :
    FlushResult × (String → List Nat) × List Nat :=
  match scanFiles sink g.syntheticPCs g.files 0 c.countersOf 0 0 [] with
  | .completed cf total _ pcs =>
      if total = 0 then (.zeroPanic, cf, pcs) else (.ret total, cf, pcs)
  | .eofStop cf total pcs => (.ret total, cf, pcs)
  | .writePanic cf => (.writePanic, cf, [])
  | .indexPanic cf => (.indexPanic, cf, [])

/-- Spec-side description of one file's emission (from the spec's words):
for every block ordinal `j` whose hit counter is nonzero, the synthetic
identifier `calculatePC i j` of file ordinal `i`, in ascending block order;
blocks with a zero counter contribute nothing. -/
def specFileEmitted (i : Nat) : Nat → List Nat → List Nat
  | _, [] => []
  | j, counter :: rest =>
      if counter = 0 then specFileEmitted i (j + 1) rest
      else calculatePC i j :: specFileEmitted i (j + 1) rest

/-- Spec-side description of a whole flush's emission (from the spec's
words): files in catalog order (ordinal `i` ascending), blocks in ascending
order within each file, one identifier per nonzero counter. -/
def specEmitted (countersOf : String → List Nat) : List String → Nat → List Nat
  | [], _ => []
  | file :: rest, i =>
      specFileEmitted i 0 (countersOf file) ++ specEmitted countersOf rest (i + 1)

/-- The PCs the scan of one counter list reads out of a fixed PC row:
for each nonzero counter at block ordinal `j`, the row entry at `j`. -/
def rowEmitted (row : List Nat) : Nat → List Nat → List Nat
  | _, [] => []
  | j, counter :: rest =>
      if counter = 0 then rowEmitted row (j + 1) rest
      else row.getD j 0 :: rowEmitted row (j + 1) rest

/-- The PCs a full scan reads for a list of files starting at file ordinal
`fi`, reading each file's row out of the PC table `spcs`. -/
def filesEmitted (spcs : List (List Nat)) (countersOf : String → List Nat) :
    List String → Nat → List Nat
  | [], _ => []
  | file :: rest, fi =>
      rowEmitted (spcs.getD fi []) 0 (countersOf file) ++
        filesEmitted spcs countersOf rest (fi + 1)

/-- A block-position fixture. -/
def blkEx : GoCoverBlock := ⟨1, 2, 3, 4⟩

/-- Blocks map of the two-file fixture: "a" has two blocks, "b" one. -/
def blocksAB : String → List GoCoverBlock :=
  fun f => if f = "a" then [blkEx, blkEx] else if f = "b" then [blkEx] else []

/-- Counters map of the two-file fixture: "a" has counters [1, 0],
"b" has [7]. -/
def countersAB : String → List Nat :=
  fun f => if f = "a" then [1, 0] else if f = "b" then [7] else []

/-- Two-file fixture, map keys enumerated as ["b", "a"]. -/
def coverAB : Cover :=
  { blockKeys := ["b", "a"], counterKeys := ["b", "a"]
    blocksOf := blocksAB, countersOf := countersAB }

/-- The same maps as `coverAB` but enumerated in the other order. -/
def coverBA : Cover :=
  { blockKeys := ["a", "b"], counterKeys := ["a", "b"]
    blocksOf := blocksAB, countersOf := countersAB }

/-- Fixture whose `Blocks` map has one key, "a", mapped to an empty block
list. -/
def coverEmptyBlocks : Cover :=
  { blockKeys := ["a"], counterKeys := []
    blocksOf := fun _ => [], countersOf := fun _ => [] }

/-- Fixture with one file, one block, and its counter zero. -/
def coverZeroCount : Cover :=
  { blockKeys := ["a"], counterKeys := ["a"]
    blocksOf := fun _ => [blkEx], countersOf := fun _ => [0] }

/-- A sink whose every write reports `io.EOF` with 0 bytes accepted. -/
def eofSink : Sink := fun _ => .eof 0

/-- A sink whose every write fails with a non-EOF error. -/
def errSink : Sink := fun _ => .err 0

/-! ### Helper lemmas -/

/-- `leData` is exactly the lexicographic order `(· ≤ ·)` on `String`
(Go's `sort.Strings` order). -/
theorem leData_iff (a b : String) : leData a b ↔ a ≤ b := by
  rw [String.le_iff_toList_le]
  exact Iff.rfl

theorem sortStrings_perm (l : List String) : List.Perm (sortStrings l) l :=
  List.perm_insertionSort leData l

theorem sortStrings_sorted (l : List String) :
    List.Sorted leData (sortStrings l) :=
  List.sorted_insertionSort leData l

/-- Any two correct sorts of permuted inputs agree: the sorted arrangement of
a string multiset is unique. -/
theorem sortStrings_eq_of_perm {l₁ l₂ : List String} (h : List.Perm l₁ l₂) :
    sortStrings l₁ = sortStrings l₂ :=
  List.eq_of_perm_of_sorted
    ((sortStrings_perm l₁).trans (h.trans (sortStrings_perm l₂).symm))
    (sortStrings_sorted l₁) (sortStrings_sorted l₂)

theorem mem_sortStrings {l : List String} {x : String} :
    x ∈ sortStrings l ↔ x ∈ l :=
  (sortStrings_perm l).mem_iff

theorem sortStrings_nodup {l : List String} (h : l.Nodup) :
    (sortStrings l).Nodup :=
  ((sortStrings_perm l).nodup_iff).mpr h

/-! ### Claim theorems -/

/-- C3 counterexample: `calculatePC` is not injective on all non-negative
pairs: file 1, block 0 and file 0, block 65536 are distinct pairs with the
same 64-bit identifier. -/
theorem calculatePC_collision :
    calculatePC 1 0 = calculatePC 0 65536 ∧ ((1, 0) : Nat × Nat) ≠ (0, 65536) := by
  decide

/-- C3 (amended): `calculatePC` is injective on pairs whose block ordinal
fits in the low 16 bits and whose file ordinal fits in the remaining 48 bits;
the mapping is a pure function of the two ordinals, hence stable. -/
theorem calculatePC_injective_bounded (f₁ b₁ f₂ b₂ : Nat)
    (hf₁ : f₁ < 2 ^ 48) (hb₁ : b₁ < 2 ^ 16) (hf₂ : f₂ < 2 ^ 48)
    (hb₂ : b₂ < 2 ^ 16) (h : calculatePC f₁ b₁ = calculatePC f₂ b₂) :
    f₁ = f₂ ∧ b₁ = b₂ := by
  unfold calculatePC at h
  omega

/-- C3 witness: the amended theorem applied at file 5, block 7. -/
theorem calculatePC_injective_bounded_witness : (5 : Nat) = 5 ∧ (7 : Nat) = 7 :=
  calculatePC_injective_bounded 5 7 5 7 (by decide) (by decide) (by decide)
    (by decide) rfl

/-- C6 counterexample: with one instrumented file "a" holding one block,
running `InitCoverageData` a second time does not leave the catalog equal to
the single-run state (the file list doubles). -/
theorem initCoverageData_not_idempotent :
    initCoverageData coverZeroCount (initCoverageData coverZeroCount globalDataZero) ≠
      initCoverageData coverZeroCount globalDataZero := by
  decide

/-- C6 (amended): a second run of `InitCoverageData` appends every file name
again: after two runs the file list is the sorted concatenation of the key
list with itself (each instrumented file listed twice), so the state equals
the single-run state only for an empty file set.  In the program the
initializer runs at most once, through the `sync.Once` guard in
`ConsumeCoverageData`. -/
theorem initCoverageData_twice_doubles_files (c : Cover) :
    (initCoverageData c (initCoverageData c globalDataZero)).files =
      sortStrings (c.blockKeys ++ c.blockKeys) := by
  simp only [initCoverageData, globalDataZero, List.nil_append]
  exact sortStrings_eq_of_perm ((sortStrings_perm c.blockKeys).append_right _)

/-- C6 witness: the doubling theorem applied to the one-file fixture. -/
theorem initCoverageData_twice_doubles_files_witness :
    (initCoverageData coverZeroCount
        (initCoverageData coverZeroCount globalDataZero)).files =
      sortStrings (coverZeroCount.blockKeys ++ coverZeroCount.blockKeys) :=
  initCoverageData_twice_doubles_files coverZeroCount

/-- C7 counterexample: a `Blocks` map with the single key "a" mapped to an
empty block list makes `KcovAvailable` return `true`, although every
registered file has an empty block list. -/
theorem kcovAvailable_empty_blocks :
    kcovAvailable coverEmptyBlocks = true ∧
      coverEmptyBlocks.blockKeys = ["a"] ∧
      coverEmptyBlocks.blocksOf "a" = [] := by
  decide

/-- C7 (amended): `KcovAvailable` returns `true` iff the `Blocks` map has at
least one registered file (`len` of a Go map counts keys, not blocks); when
every registered file has a nonempty block list this coincides with "some
file has at least one cataloged block".  It reads state only. -/
theorem kcovAvailable_iff (c : Cover) :
    (kcovAvailable c = true ↔ c.blockKeys ≠ []) ∧
      ((∀ f ∈ c.blockKeys, c.blocksOf f ≠ []) →
        (kcovAvailable c = true ↔ ∃ f ∈ c.blockKeys, c.blocksOf f ≠ [])) := by
  have hbase : kcovAvailable c = true ↔ c.blockKeys ≠ [] := by
    simp [kcovAvailable, List.length_pos]
  refine ⟨hbase, fun h => hbase.trans ⟨fun hne => ?_, fun hex => ?_⟩⟩
  · match hk : c.blockKeys, hne with
    | f :: rest, _ => exact ⟨f, by simp, h f (by simp [hk])⟩
  · obtain ⟨f, hf, _⟩ := hex
    exact List.ne_nil_of_mem hf

/-- C2: with two cataloged files (and two blocks in file "a"), the lookups
at index = length run the underlying slice/map indexing, which is a Go
runtime panic; only index = length + 1 (and beyond) takes the guarded
OutOfRange error branch.  The check `i > total` is an off-by-one: its own
error message says "index out of range" yet `i == total` — an out-of-range
index — is let through to the panicking lookup. -/
theorem lookup_at_length_panics :
    fileFromIndex (initCoverageData coverAB globalDataZero) 2 =
      .runtimePanic ∧
    fileFromIndex (initCoverageData coverAB globalDataZero) 3 =
      .errorOutOfRange 3 2 ∧
    blockFromIndex coverAB "a" 2 = .runtimePanic ∧
    blockFromIndex coverAB "a" 3 = .errorOutOfRange 3 2 := by
  decide

/-- C10: a negative index never reaches the guarded OutOfRange branch of
`FileFromIndex`/`BlockFromIndex`: the check `i > total` passes for `i < 0`,
the underlying lookup is attempted and panics; the error branch is taken
exactly when `i > length`. -/
theorem negative_index_reaches_lookup (g : GlobalData) (c : Cover)
    (file : String) (i : Int) :
    (i < 0 →
      fileFromIndex g i = .runtimePanic ∧
        blockFromIndex c file i = .runtimePanic) ∧
    ((fileFromIndex g i).isOutOfRange = true ↔ i > (g.files.length : Int)) ∧
    ((blockFromIndex c file i).isOutOfRange = true ↔
      i > ((c.blocksOf file).length : Int)) := by
  refine ⟨fun hneg => ⟨?_, ?_⟩, ?_, ?_⟩
  · simp only [fileFromIndex]
    rw [if_neg (by omega), if_neg (by omega)]
  · simp only [blockFromIndex]
    rw [if_neg (by omega), if_neg (by omega)]
  · simp only [fileFromIndex]
    split_ifs with h₁ h₂ <;> simp [GoResult.isOutOfRange, h₁]
  · simp only [blockFromIndex]
    split_ifs with h₁ h₂ <;> simp [GoResult.isOutOfRange, h₁]

/-- C10 witness: index -1 panics on both lookups, and index 3 with two
cataloged files takes the error branch. -/
theorem negative_index_reaches_lookup_witness :
    fileFromIndex (initCoverageData coverAB globalDataZero) (-1) =
      .runtimePanic ∧
    blockFromIndex coverAB "a" (-1) = .runtimePanic ∧
    (fileFromIndex (initCoverageData coverAB globalDataZero) 3).isOutOfRange
      = true :=
  ⟨((negative_index_reaches_lookup (initCoverageData coverAB globalDataZero)
      coverAB "a" (-1)).1 (by decide)).1,
   ((negative_index_reaches_lookup (initCoverageData coverAB globalDataZero)
      coverAB "a" (-1)).1 (by decide)).2,
   ((negative_index_reaches_lookup (initCoverageData coverAB globalDataZero)
      coverAB "a" 3).2.1).mpr (by decide)⟩

/-- C4: if the scan of `ConsumeCoverageData` completes over every file and
the byte total is zero, the call panics (the zero-result invariant) and in
particular does not return 0 — or any byte count — as a normal result. -/
theorem consumeCoverageData_zero_total (g : GlobalData) (c : Cover)
    (sink : Sink) (cf : String → List Nat) (w : Nat) (pcs : List Nat)
    (h : scanFiles sink g.syntheticPCs g.files 0 c.countersOf 0 0 [] =
      .completed cf 0 w pcs) :
    consumeCoverageData g c sink = (.zeroPanic, cf, pcs) ∧
      ∀ n, (consumeCoverageData g c sink).1 ≠ .ret n := by
  unfold consumeCoverageData
  rw [h]
  simp

/-- C4 witness: one file with one block whose counter is zero: the flush
scans everything, writes nothing, and panics. -/
theorem consumeCoverageData_zero_total_witness :
    consumeCoverageData (initCoverageData coverZeroCount globalDataZero)
        coverZeroCount perfectSink =
      (.zeroPanic, updateCounters coverZeroCount.countersOf "a" [0], []) :=
  (consumeCoverageData_zero_total (initCoverageData coverZeroCount globalDataZero)
    coverZeroCount perfectSink
    (updateCounters coverZeroCount.countersOf "a" [0]) 0 [] rfl).1

/-- C5: an `io.EOF` from the sink makes the flush return the bytes written
so far (`total + n`) as a normal result, stopping immediately: the remaining
counters of the current file are left untouched and the remaining files are
not scanned; any other write error panics instead of returning a count. -/
theorem consumeCoverageData_eof_vs_error (g : GlobalData) (c : Cover)
    (sink : Sink) :
    (∀ cf total pcs,
        scanFiles sink g.syntheticPCs g.files 0 c.countersOf 0 0 [] =
            .eofStop cf total pcs →
        consumeCoverageData g c sink = (.ret total, cf, pcs)) ∧
    (∀ cf,
        scanFiles sink g.syntheticPCs g.files 0 c.countersOf 0 0 [] =
            .writePanic cf →
        (consumeCoverageData g c sink).1 = .writePanic ∧
          ∀ n, (consumeCoverageData g c sink).1 ≠ .ret n) ∧
    (∀ spcs fi counter rest j t w acc pc n, counter ≠ 0 →
        (spcs.get? fi).bind (fun row => row.get? j) = some pc →
        sink w = .eof n →
        scanFile sink spcs fi (counter :: rest) j t w acc =
          .eofStop (0 :: rest) (t + n) (acc ++ [pc])) ∧
    (∀ spcs fi counter rest j t w acc pc m, counter ≠ 0 →
        (spcs.get? fi).bind (fun row => row.get? j) = some pc →
        sink w = .err m →
        scanFile sink spcs fi (counter :: rest) j t w acc =
          .writePanic (0 :: rest)) ∧
    (∀ file rest fi cf t w pcs cs t' newPcs,
        scanFile sink g.syntheticPCs fi (cf file) 0 t w [] =
            .eofStop cs t' newPcs →
        scanFiles sink g.syntheticPCs (file :: rest) fi cf t w pcs =
          .eofStop (updateCounters cf file cs) t' (pcs ++ newPcs)) := by
  refine ⟨fun cf total pcs h => ?_, fun cf h => ?_,
    fun spcs fi counter rest j t w acc pc n hc hl hs => ?_,
    fun spcs fi counter rest j t w acc pc m hc hl hs => ?_,
    fun file rest fi cf t w pcs cs t' newPcs h => ?_⟩
  · unfold consumeCoverageData
    rw [h]
  · unfold consumeCoverageData
    rw [h]
    simp
  · simp only [scanFile, hl, hs, if_neg hc]
  · simp only [scanFile, hl, hs, if_neg hc]
  · simp only [scanFiles, h]

/-- C5 witness: against the two-file fixture, an always-EOF sink makes the
flush return 0 bytes normally having cleared only the first nonzero counter,
and an always-failing sink makes it panic. -/
theorem consumeCoverageData_eof_vs_error_witness :
    consumeCoverageData (initCoverageData coverAB globalDataZero) coverAB
        eofSink =
      (.ret 0, updateCounters coverAB.countersOf "a" [0, 0], [0]) ∧
    (consumeCoverageData (initCoverageData coverAB globalDataZero) coverAB
        errSink).1 = .writePanic :=
  ⟨(consumeCoverageData_eof_vs_error (initCoverageData coverAB globalDataZero)
      coverAB eofSink).1
      (updateCounters coverAB.countersOf "a" [0, 0]) 0 [0] rfl,
   ((consumeCoverageData_eof_vs_error (initCoverageData coverAB globalDataZero)
      coverAB errSink).2.1
      (updateCounters coverAB.countersOf "a" [0, 0]) rfl).1⟩

/-- C7 witness: the amended theorem applied to the two-file fixture. -/
theorem kcovAvailable_iff_witness :
    kcovAvailable coverAB = true ∧
      (∃ f ∈ coverAB.blockKeys, coverAB.blocksOf f ≠ []) :=
  ⟨((kcovAvailable_iff coverAB).1).mpr (by decide),
    ((kcovAvailable_iff coverAB).2 (by decide)).mp
      (((kcovAvailable_iff coverAB).1).mpr (by decide))⟩

theorem storeZeroAll_length : ∀ l : List Nat, (storeZeroAll l).length = l.length
  | [] => rfl
  | _ :: rest => by simp [storeZeroAll, storeZeroAll_length rest]

theorem storeZeroAll_idem : ∀ l : List Nat,
    storeZeroAll (storeZeroAll l) = storeZeroAll l
  | [] => rfl
  | _ :: rest => by simp [storeZeroAll, storeZeroAll_idem rest]

theorem eq_zero_of_mem_storeZeroAll (l : List Nat) :
    ∀ v ∈ storeZeroAll l, v = 0 := by
  induction l with
  | nil => intro v hv; simp [storeZeroAll] at hv
  | cons a rest ih =>
    intro v hv
    rw [storeZeroAll] at hv
    rcases List.mem_cons.mp hv with h | h
    · exact h
    · exact ih v h

/-- Pointwise effect of the `ClearCoverageData` loop: a key of the
`Counters` map gets its counter slice zeroed, anything else is untouched. -/
theorem clearLoop_apply : ∀ (ks : List String) (f : String → List Nat)
    (x : String),
    clearLoop ks f x = if x ∈ ks then storeZeroAll (f x) else f x
  | [], f, x => by simp [clearLoop]
  | k :: ks, f, x => by
    rw [clearLoop, clearLoop_apply ks]
    by_cases hx : x = k
    · subst hx
      by_cases hmem : x ∈ ks <;>
        simp [updateCounters, hmem, storeZeroAll_idem]
    · by_cases hmem : x ∈ ks <;>
        simp [updateCounters, hx, hmem]

/-- C8: `ClearCoverageData` leaves the `Blocks` map, the key sets and every
counter slice outside the `Counters` map unchanged, emits nothing (it is a
pure state-to-state operation that produces no output and reads no catalog),
and stores zero into every counter of every file of the `Counters` map,
preserving slice lengths. -/
theorem clearCoverageData_frame (c : Cover) (file : String) :
    (clearCoverageData c).blockKeys = c.blockKeys ∧
    (clearCoverageData c).counterKeys = c.counterKeys ∧
    (clearCoverageData c).blocksOf = c.blocksOf ∧
    (file ∈ c.counterKeys →
      (clearCoverageData c).countersOf file = storeZeroAll (c.countersOf file) ∧
      ((clearCoverageData c).countersOf file).length =
        (c.countersOf file).length ∧
      ∀ v ∈ (clearCoverageData c).countersOf file, v = 0) ∧
    (file ∉ c.counterKeys →
      (clearCoverageData c).countersOf file = c.countersOf file) := by
  refine ⟨rfl, rfl, rfl, fun hmem => ?_, fun hmem => ?_⟩
  · have h : (clearCoverageData c).countersOf file =
        storeZeroAll (c.countersOf file) := by
      rw [clearCoverageData]
      simpa [hmem] using clearLoop_apply c.counterKeys c.countersOf file
    exact ⟨h, by rw [h, storeZeroAll_length],
      fun v hv => eq_zero_of_mem_storeZeroAll _ v (h ▸ hv)⟩
  · rw [clearCoverageData]
    simpa [hmem] using clearLoop_apply c.counterKeys c.countersOf file

/-- C8 witness: the frame theorem applied to the two-file fixture at file
"a" (a key of the Counters map) and at "z" (not a key). -/
theorem clearCoverageData_frame_witness :
    (clearCoverageData coverAB).blocksOf = coverAB.blocksOf ∧
    (clearCoverageData coverAB).countersOf "a" =
      storeZeroAll (coverAB.countersOf "a") ∧
    (∀ v ∈ (clearCoverageData coverAB).countersOf "a", v = 0) ∧
    (clearCoverageData coverAB).countersOf "z" = coverAB.countersOf "z" :=
  ⟨(clearCoverageData_frame coverAB "a").2.2.1,
   ((clearCoverageData_frame coverAB "a").2.2.2.1 (by decide)).1,
   ((clearCoverageData_frame coverAB "a").2.2.2.1 (by decide)).2.2,
   (clearCoverageData_frame coverAB "z").2.2.2.2 (by decide)⟩

/-- C9: catalog construction is deterministic: for the same `Blocks` map
(same lookup function, keys enumerated in any order) two runs of
`InitCoverageData` from the same starting state produce identical file
lists, file ordinals and synthetic identifiers. -/
theorem initCoverageData_deterministic (c₁ c₂ : Cover) (g : GlobalData)
    (hkeys : List.Perm c₁.blockKeys c₂.blockKeys)
    (hblocks : c₁.blocksOf = c₂.blocksOf) :
    initCoverageData c₁ g = initCoverageData c₂ g := by
  have hfiles : sortStrings (g.files ++ c₁.blockKeys) =
      sortStrings (g.files ++ c₂.blockKeys) :=
    sortStrings_eq_of_perm (List.Perm.append_left _ hkeys)
  simp [initCoverageData, hfiles, hblocks]

/-- C9 witness: the two-file fixture with its map keys enumerated in the
two possible orders yields the same catalog. -/
theorem initCoverageData_deterministic_witness :
    initCoverageData coverAB globalDataZero =
      initCoverageData coverBA globalDataZero :=
  initCoverageData_deterministic coverAB coverBA globalDataZero
    (List.Perm.swap "a" "b" []) rfl

theorem get?_eq_some_getD {α : Type} (d : α) :
    ∀ (l : List α) (j : Nat), j < l.length → l.get? j = some (l.getD j d)
  | _ :: _, 0, _ => rfl
  | _ :: l, j + 1, h => get?_eq_some_getD d l j (by simpa using h)
  | [], _, h => absurd h (by simp)

theorem getD_mem {α : Type} (d : α) :
    ∀ (l : List α) (k : Nat), k < l.length → l.getD k d ∈ l
  | a :: _, 0, _ => List.mem_cons_self a _
  | _ :: l, k + 1, h =>
      List.mem_cons_of_mem _ (getD_mem d l k (by simpa using h))
  | [], _, h => absurd h (by simp)

theorem filePCs_length (i : Nat) (blocks : List GoCoverBlock) :
    (filePCs i blocks).length = blocks.length := by
  simp [filePCs]

theorem filePCs_getD (i : Nat) (blocks : List GoCoverBlock) (j : Nat)
    (h : j < blocks.length) : (filePCs i blocks).getD j 0 = calculatePC i j := by
  rw [List.getD_eq_getElem?_getD]
  simp [filePCs, List.getElem?_range, h]

/-- Reading PCs out of the row built by `InitCoverageData` for file ordinal
`i` yields exactly the spec-side identifiers `calculatePC i j`. -/
theorem rowEmitted_filePCs (i : Nat) (blocks : List GoCoverBlock) :
    ∀ (counters : List Nat) (j : Nat), j + counters.length ≤ blocks.length →
      rowEmitted (filePCs i blocks) j counters = specFileEmitted i j counters
  | [], _, _ => rfl
  | counter :: rest, j, h => by
    have hj : j < blocks.length := by
      simp only [List.length_cons] at h; omega
    rw [rowEmitted, specFileEmitted, filePCs_getD i blocks j hj,
      rowEmitted_filePCs i blocks rest (j + 1)
        (by simp only [List.length_cons] at h; omega)]

theorem buildPCs_length (bo : String → List GoCoverBlock) :
    ∀ (files : List String) (fi : Nat),
      (buildPCs bo files fi).length = files.length
  | [], _ => rfl
  | _ :: rest, fi => by
    simp [buildPCs, buildPCs_length bo rest (fi + 1)]

theorem getD_buildPCs (bo : String → List GoCoverBlock) :
    ∀ (files : List String) (fi k : Nat), k < files.length →
      (buildPCs bo files fi).getD k [] =
        filePCs (fi + k) (bo (files.getD k ""))
  | _ :: _, _, 0, _ => by simp [buildPCs]
  | _ :: rest, fi, k + 1, h => by
    simp only [buildPCs, List.getD_cons_succ]
    rw [getD_buildPCs bo rest (fi + 1) k (by simpa using h)]
    congr 1
    omega

/-- The inner scan under a sink that accepts everything: the loop completes,
every counter is stored back as zero, the PCs of the nonzero counters are
appended to the output in block order, and the byte total grows by 8 per
written PC. -/
theorem scanFile_perfect (spcs : List (List Nat)) (fi : Nat) (row : List Nat)
    (hrow : spcs.get? fi = some row) :
    ∀ (counters : List Nat) (j t w : Nat) (acc : List Nat),
      j + counters.length ≤ row.length →
      scanFile perfectSink spcs fi counters j t w acc =
        .done (storeZeroAll counters)
          (t + 8 * (rowEmitted row j counters).length)
          (w + (rowEmitted row j counters).length)
          (acc ++ rowEmitted row j counters)
  | [], j, t, w, acc, _ => by
    simp [scanFile, rowEmitted, storeZeroAll]
  | counter :: rest, j, t, w, acc, h => by
    have hj : j < row.length := by
      simp only [List.length_cons] at h; omega
    have hrest : (j + 1) + rest.length ≤ row.length := by
      simp only [List.length_cons] at h; omega
    by_cases hc : counter = 0
    · subst hc
      rw [scanFile, if_pos rfl,
        scanFile_perfect spcs fi row hrow rest (j + 1) t w acc hrest,
        rowEmitted, if_pos rfl]
      simp [BlockScan.consCounter, storeZeroAll]
    · rw [scanFile, if_neg hc]
      rw [hrow]
      simp only [Option.some_bind, get?_eq_some_getD 0 row j hj]
      show (scanFile perfectSink spcs fi rest (j + 1) (t + 8) (w + 1)
          (acc ++ [row.getD j 0])).consCounter 0 = _
      rw [scanFile_perfect spcs fi row hrow rest (j + 1) (t + 8) (w + 1)
        (acc ++ [row.getD j 0]) hrest,
        rowEmitted, if_neg hc]
      rw [BlockScan.consCounter]
      show BlockScan.done (0 :: storeZeroAll rest) _ _ _ = _
      congr 1
      · simp only [List.length_cons]; omega
      · simp only [List.length_cons]; omega
      · simp

theorem filesEmitted_congr (spcs : List (List Nat)) :
    ∀ (files : List String) (fi : Nat) (cf₁ cf₂ : String → List Nat),
      (∀ f ∈ files, cf₁ f = cf₂ f) →
      filesEmitted spcs cf₁ files fi = filesEmitted spcs cf₂ files fi
  | [], _, _, _, _ => rfl
  | file :: rest, fi, cf₁, cf₂, hcf => by
    rw [filesEmitted, filesEmitted, hcf file (by simp),
      filesEmitted_congr spcs rest (fi + 1) cf₁ cf₂
        (fun f hf => hcf f (List.mem_cons_of_mem _ hf))]

/-- The full scan under a sink that accepts everything: the loop completes
over every file, counters of scanned files end up zeroed (others untouched),
and the output is the concatenation of the per-file emissions in file
order. -/
theorem scanFiles_perfect (spcs : List (List Nat)) :
    ∀ (files : List String) (fi : Nat) (cf : String → List Nat) (t w : Nat)
      (pcs : List Nat),
      files.Nodup →
      (∀ k, k < files.length → fi + k < spcs.length ∧
        (cf (files.getD k "")).length ≤ (spcs.getD (fi + k) []).length) →
      scanFiles perfectSink spcs files fi cf t w pcs =
        .completed
          (fun x => if x ∈ files then storeZeroAll (cf x) else cf x)
          (t + 8 * (filesEmitted spcs cf files fi).length)
          (w + (filesEmitted spcs cf files fi).length)
          (pcs ++ filesEmitted spcs cf files fi)
  | [], fi, cf, t, w, pcs, _, _ => by
    have hF : (fun x => if x ∈ ([] : List String) then storeZeroAll (cf x)
        else cf x) = cf := by
      funext x; simp
    rw [scanFiles, hF]
    simp [filesEmitted]
  | file :: rest, fi, cf, t, w, pcs, hnd, hk => by
    obtain ⟨hfile_notin, hnd_rest⟩ := List.nodup_cons.mp hnd
    have hfi : fi < spcs.length := by simpa using (hk 0 (by simp)).1
    have hbound : 0 + (cf file).length ≤ (spcs.getD fi []).length := by
      have h := (hk 0 (by simp)).2
      simpa using h
    have hrow : spcs.get? fi = some (spcs.getD fi []) :=
      get?_eq_some_getD [] spcs fi hfi
    rw [scanFiles,
      scanFile_perfect spcs fi (spcs.getD fi []) hrow (cf file) 0 t w []
        hbound]
    show scanFiles perfectSink spcs rest (fi + 1)
        (updateCounters cf file (storeZeroAll (cf file))) _ _ _ = _
    have hcf' : ∀ f ∈ rest,
        updateCounters cf file (storeZeroAll (cf file)) f = cf f := by
      intro f hf
      have hne : f ≠ file := fun hEq => hfile_notin (hEq ▸ hf)
      simp [updateCounters, hne]
    have hk' : ∀ k, k < rest.length → (fi + 1) + k < spcs.length ∧
        ((updateCounters cf file (storeZeroAll (cf file)))
          (rest.getD k "")).length ≤ (spcs.getD ((fi + 1) + k) []).length := by
      intro k hkk
      have h := hk (k + 1) (by simpa using hkk)
      simp only [List.getD_cons_succ] at h
      have hidx : fi + 1 + k = fi + (k + 1) := by omega
      rw [hidx]
      refine ⟨h.1, ?_⟩
      rw [hcf' (rest.getD k "") (getD_mem "" rest k hkk)]
      exact h.2
    rw [scanFiles_perfect spcs rest (fi + 1)
      (updateCounters cf file (storeZeroAll (cf file)))
      (t + 8 * (rowEmitted (spcs.getD fi []) 0 (cf file)).length)
      (w + (rowEmitted (spcs.getD fi []) 0 (cf file)).length)
      (pcs ++ ([] ++ rowEmitted (spcs.getD fi []) 0 (cf file)))
      hnd_rest hk']
    rw [filesEmitted_congr spcs rest (fi + 1) _ cf hcf']
    have hF : (fun x => if x ∈ rest then
          storeZeroAll (updateCounters cf file (storeZeroAll (cf file)) x)
        else updateCounters cf file (storeZeroAll (cf file)) x) =
        (fun x => if x ∈ file :: rest then storeZeroAll (cf x) else cf x) := by
      funext x
      by_cases hx : x ∈ rest
      · have hne : x ≠ file := fun hEq => hfile_notin (hEq ▸ hx)
        simp [hx, updateCounters, hne, List.mem_cons]
      · by_cases hxf : x = file
        · subst hxf
          simp [hx, updateCounters]
        · simp [hx, hxf, updateCounters, List.mem_cons]
    rw [hF]
    show FlushScan.completed _ _ _ _ = FlushScan.completed _ _ _ _
    rw [filesEmitted]
    congr 1
    · simp only [List.length_append]; omega
    · simp only [List.length_append]; omega
    · simp [List.append_assoc]

/-- Bridging lemma: reading PCs out of the table built by
`InitCoverageData` is the spec-side emission by `calculatePC`, provided each
file's counter slice is no longer than its block slice. -/
theorem filesEmitted_eq_specEmitted (spcs : List (List Nat))
    (bo : String → List GoCoverBlock) (cf : String → List Nat) :
    ∀ (files : List String) (fi : Nat),
      (∀ k, k < files.length →
        spcs.getD (fi + k) [] = filePCs (fi + k) (bo (files.getD k ""))) →
      (∀ f ∈ files, (cf f).length ≤ (bo f).length) →
      filesEmitted spcs cf files fi = specEmitted cf files fi
  | [], _, _, _ => rfl
  | file :: rest, fi, hs, hal => by
    have h0 := hs 0 (by simp)
    simp only [Nat.add_zero, List.getD_cons_zero] at h0
    rw [filesEmitted, specEmitted, h0,
      rowEmitted_filePCs fi (bo file) (cf file) 0
        (by simpa using hal file (by simp)),
      filesEmitted_eq_specEmitted spcs bo cf rest (fi + 1)
        (fun k hk => by
          have h := hs (k + 1) (by simpa using hk)
          simp only [List.getD_cons_succ] at h
          have hidx : fi + 1 + k = fi + (k + 1) := by omega
          rw [hidx]
          exact h)
        (fun f hf => hal f (List.mem_cons_of_mem _ hf))]

/-- C1: a flush against the freshly initialized catalog with a sink that
accepts everything emits exactly one synthetic identifier for every block
whose counter is nonzero, none for zero counters, in catalog order (file
ordinal ascending, block ordinal ascending), stores every scanned counter
back to zero (other map entries untouched), and returns 8 bytes per emitted
identifier (panicking only in the no-output case). -/
theorem consumeCoverageData_emits_catalog_order (c : Cover) (g : GlobalData)
    (hg : g = initCoverageData c globalDataZero)
    (hnd : c.blockKeys.Nodup)
    (hal : ∀ f ∈ c.blockKeys,
      (c.countersOf f).length = (c.blocksOf f).length) :
    (consumeCoverageData g c perfectSink).2.2 =
      specEmitted c.countersOf g.files 0 ∧
    (consumeCoverageData g c perfectSink).1 =
      (if (specEmitted c.countersOf g.files 0).length = 0 then .zeroPanic
       else .ret (8 * (specEmitted c.countersOf g.files 0).length)) ∧
    (∀ f ∈ c.blockKeys,
      (consumeCoverageData g c perfectSink).2.1 f =
        storeZeroAll (c.countersOf f)) ∧
    (∀ f, f ∉ c.blockKeys →
      (consumeCoverageData g c perfectSink).2.1 f = c.countersOf f) := by
  subst hg
  have hfiles : (initCoverageData c globalDataZero).files =
      sortStrings c.blockKeys := by
    simp [initCoverageData, globalDataZero]
  have hspcs : (initCoverageData c globalDataZero).syntheticPCs =
      buildPCs c.blocksOf (sortStrings c.blockKeys) 0 := by
    simp [initCoverageData, globalDataZero]
  have hk : ∀ k, k < (sortStrings c.blockKeys).length →
      0 + k < (buildPCs c.blocksOf (sortStrings c.blockKeys) 0).length ∧
      (c.countersOf ((sortStrings c.blockKeys).getD k "")).length ≤
        ((buildPCs c.blocksOf (sortStrings c.blockKeys) 0).getD (0 + k)
          []).length := by
    intro k hkk
    constructor
    · rw [buildPCs_length]; omega
    · rw [Nat.zero_add, getD_buildPCs c.blocksOf _ 0 k hkk, Nat.zero_add,
        filePCs_length]
      exact le_of_eq (hal _ (mem_sortStrings.mp (getD_mem "" _ k hkk)))
  have hscan := scanFiles_perfect
    (buildPCs c.blocksOf (sortStrings c.blockKeys) 0)
    (sortStrings c.blockKeys) 0 c.countersOf 0 0 []
    (sortStrings_nodup hnd) hk
  have hbridge :
      filesEmitted (buildPCs c.blocksOf (sortStrings c.blockKeys) 0)
        c.countersOf (sortStrings c.blockKeys) 0 =
      specEmitted c.countersOf (sortStrings c.blockKeys) 0 :=
    filesEmitted_eq_specEmitted _ c.blocksOf c.countersOf
      (sortStrings c.blockKeys) 0
      (fun k hkk => by simpa using getD_buildPCs c.blocksOf _ 0 k hkk)
      (fun f hf => le_of_eq (hal f (mem_sortStrings.mp hf)))
  rw [hbridge] at hscan
  unfold consumeCoverageData
  rw [hfiles, hspcs, hscan]
  simp only [Nat.zero_add, List.nil_append]
  refine ⟨?_, ?_, ?_, ?_⟩
  · split <;> rfl
  · rcases Nat.eq_zero_or_pos
      (specEmitted c.countersOf (sortStrings c.blockKeys) 0).length with
      hlen | hlen
    · rw [hlen]
      simp
    · rw [if_neg (by omega), if_neg (by omega)]
  · intro f hf
    have hmem : f ∈ sortStrings c.blockKeys := mem_sortStrings.mpr hf
    split <;> simp [hmem]
  · intro f hf
    have hmem : f ∉ sortStrings c.blockKeys := fun h =>
      hf (mem_sortStrings.mp h)
    split <;> simp [hmem]

/-- C1 witness: the two-file fixture under a perfect sink: the PCs written
are exactly the catalog-order spec emission, concretely `[0, 65536]` (block
0 of file "a" and block 0 of file "b"), and file "a"'s counters are stored
back to zero. -/
theorem consumeCoverageData_emits_catalog_order_witness :
    (consumeCoverageData (initCoverageData coverAB globalDataZero) coverAB
        perfectSink).2.2 =
      specEmitted coverAB.countersOf
        (initCoverageData coverAB globalDataZero).files 0 ∧
    specEmitted coverAB.countersOf
        (initCoverageData coverAB globalDataZero).files 0 = [0, 65536] ∧
    (consumeCoverageData (initCoverageData coverAB globalDataZero) coverAB
        perfectSink).2.1 "a" = storeZeroAll (coverAB.countersOf "a") :=
  ⟨(consumeCoverageData_emits_catalog_order coverAB _ rfl (by decide)
      (by decide)).1,
   by decide,
   (consumeCoverageData_emits_catalog_order coverAB _ rfl (by decide)
      (by decide)).2.2.1 "a" (by decide)⟩

end Coverage
